import Mathlib

/-!
Verification of the BitFunnel lab-notebook dependency-signature locking
protocol and repository manager, against a shallow embedding of the
sources in src/.

The lock package in src/src/experiment/file/lock/lock.go ships only the
Manager interface and a LOCKING PROTOCOL comment; the Pipeline Runner,
Lock Store and Signature Computer implementations are not present in the
repository.  Those components are therefore modelled here: control flow
follows the LOCKING PROTOCOL comment in lock.go, and details the comment
leaves open (record contents, serialization format, signature
canonicalization) follow the specification.  The bfrepo package
(src/src/bfrepo/bfrepo.go) is embedded directly from its Go source.
-/

/-! # Signature Computer -/

/-- One file participating in a signature: its relative path (the stable
sort key) and its byte content. -/
structure BFFile where
  path : String
  content : String
deriving DecidableEq

/-- Ordering of files by the stable key (path) used for canonicalization
before hashing. -/
def pathLe (a b : BFFile) : Prop := a.path ≤ b.path

instance : DecidableRel pathLe :=
  fun a b => inferInstanceAs (Decidable (a.path ≤ b.path))

instance : IsTotal BFFile pathLe := ⟨fun a b => le_total a.path b.path⟩

instance : IsTrans BFFile pathLe := ⟨fun _ _ _ h1 h2 => le_trans h1 h2⟩

/-- Modelled from the spec: the Signature Computer (absent from src/).
Files are sorted by the stable key (path) and the per-file digests and
relative paths are combined into one digest.  SHA-512 is modelled as an
injective digest, so a signature is represented by the canonicalized
(path-sorted) list of files itself; two signatures are equal iff the
underlying content sets are byte-identical, which is the equality the
spec postulates for real signatures. -/
def compute (files : List BFFile) : List BFFile :=
  List.insertionSort pathLe files

/-- Two path-sorted file lists that are permutations of each other and
have no duplicate paths are equal. -/
theorem sorted_nodup_paths_eq : ∀ {l1 l2 : List BFFile}, l1.Perm l2 →
    l1.Sorted pathLe → l2.Sorted pathLe →
    (l1.map BFFile.path).Nodup → l1 = l2 := by
  intro l1
  induction l1 with
  | nil =>
    intro l2 hp _ _ _
    exact hp.nil_eq
  | cons a t ih =>
    intro l2 hp hs1 hs2 hnd
    cases l2 with
    | nil =>
      have := hp.length_eq
      simp at this
    | cons b u =>
      have hsub1 : a = b ∨ a ∈ u := by
        have := hp.subset (List.mem_cons_self a t)
        simpa using this
      have hsub2 : b = a ∨ b ∈ t := by
        have := hp.symm.subset (List.mem_cons_self b u)
        simpa using this
      have hba : b.path ≤ a.path := by
        rcases hsub1 with rfl | h
        · exact le_refl _
        · exact List.rel_of_sorted_cons hs2 a h
      have hab : a.path ≤ b.path := by
        rcases hsub2 with rfl | h
        · exact le_refl _
        · exact List.rel_of_sorted_cons hs1 b h
      have hpath : a.path = b.path := le_antisymm hab hba
      have hae : a = b := by
        rcases hsub1 with rfl | h
        · rfl
        · exfalso
          have hnd2 : ((b :: u).map BFFile.path).Nodup :=
            ((hp.map BFFile.path).nodup_iff).mp hnd
          have hbu : b.path ∉ u.map BFFile.path :=
            (List.nodup_cons.mp (by simpa using hnd2)).1
          have : a.path ∈ u.map BFFile.path := List.mem_map_of_mem _ h
          rw [hpath] at this
          exact hbu this
      subst hae
      have htp : t.Perm u := hp.cons_inv
      have hndt : (t.map BFFile.path).Nodup :=
        (List.nodup_cons.mp (by simpa using hnd)).2
      exact congrArg (List.cons a) (ih htp hs1.of_cons hs2.of_cons hndt)

/-- C6: For every file set F, the Signature Computer's compute is
order-independent and extension-sensitive: compute(F) equals
compute(permute(F)) for every permutation of F (paths being distinct in a
file set); compute(F) differs from compute(F with an additional file
added); and whenever the path multisets of two file lists differ (a file
added, removed, or renamed), the computed signatures differ. -/
theorem compute_order_independent_extension_sensitive :
    (∀ F G : List BFFile, F.Perm G → (F.map BFFile.path).Nodup →
      compute F = compute G) ∧
    (∀ (F : List BFFile) (e : BFFile), compute (e :: F) ≠ compute F) ∧
    (∀ F G : List BFFile, ¬ (F.map BFFile.path).Perm (G.map BFFile.path) →
      compute F ≠ compute G) := by
  refine ⟨?_, ?_, ?_⟩
  · intro F G hp hnd
    apply sorted_nodup_paths_eq
    · exact (List.perm_insertionSort pathLe F).trans
        (hp.trans (List.perm_insertionSort pathLe G).symm)
    · exact List.sorted_insertionSort pathLe F
    · exact List.sorted_insertionSort pathLe G
    · exact ((List.perm_insertionSort pathLe F).map BFFile.path).nodup_iff.mpr hnd
  · intro F e h
    have hlen := congrArg List.length h
    have h1 := (List.perm_insertionSort pathLe (e :: F)).length_eq
    have h2 := (List.perm_insertionSort pathLe F).length_eq
    simp only [compute] at hlen
    rw [h1, h2] at hlen
    simp at hlen
  · intro F G hne h
    apply hne
    have h1 : F.Perm (compute G) :=
      h ▸ (List.perm_insertionSort pathLe F).symm
    have hFG : F.Perm G := h1.trans (List.perm_insertionSort pathLe G)
    exact hFG.map BFFile.path

/-- Witness: the order-independence conjunct at a concrete two-file set,
and the extension-sensitivity conjunct at a concrete added file. -/
theorem compute_order_independent_extension_sensitive_witness :
    compute [⟨"b", "2"⟩, ⟨"a", "1"⟩] = compute [⟨"a", "1"⟩, ⟨"b", "2"⟩] ∧
    compute (⟨"c", "3"⟩ :: [⟨"a", "1"⟩]) ≠ compute [⟨"a", "1"⟩] :=
  ⟨compute_order_independent_extension_sensitive.1 _ _
      (List.Perm.swap (⟨"a", "1"⟩ : BFFile) (⟨"b", "2"⟩ : BFFile) []) (by decide),
    compute_order_independent_extension_sensitive.2.1 [⟨"a", "1"⟩] ⟨"c", "3"⟩⟩

/-! # Lock Record and Lock Store serialization -/

/-- The persisted unit of trust for one pipeline stage (the LOCKFILE
contents): the stage's own signature plus the signature each dependency
had when this stage was last successfully produced. -/
structure LockRecord where
  ownSignature : String
  dependencySignatures : List (String × String)
deriving DecidableEq

/-- Serialization of one quoted string of the Lock Record file. -/
def serStr (s : List Char) : List Char := '\"' :: (s ++ ['\"'])

/-- Serialization of one dependency entry, quoted key and value joined
by a colon. -/
def serEntry (kv : String × String) : List Char :=
  serStr kv.1.data ++ (':' :: serStr kv.2.data)

/-- Serialization of the dependency entries, comma separated. -/
def serEntries : List (String × String) → List Char
  | [] => []
  | [kv] => serEntry kv
  | kv :: rest => serEntry kv ++ (',' :: serEntries rest)

/-- Modelled from the spec: the Lock Store's save operation (absent from
src/), producing the Lock Record file bytes in the shape the spec fixes
for the external interface: an object holding the quoted ownSignature
and the object of quoted dependency name/signature pairs. -/
def saveBytes (r : LockRecord) : List Char :=
  ('{' :: (serStr "ownSignature".data ++ [':'])) ++
    (serStr r.ownSignature.data ++
      ((',' :: (serStr "dependencySignatures".data ++ [':', '{'])) ++
        (serEntries r.dependencySignatures ++ ('}' :: ['}']))))

/-- Lock Record file contents written by save. -/
def save (r : LockRecord) : String := String.mk (saveBytes r)

/-- Scan the characters of a quoted string up to the closing quote. -/
def scanStr : List Char → Option (List Char × List Char)
  | [] => none
  | c :: rest =>
    if c = '\"' then some ([], rest)
    else
      match scanStr rest with
      | none => none
      | some (s, r) => some (c :: s, r)

/-- Parse a quoted string, returning its contents and the rest of the
input. -/
def parseQuoted : List Char → Option (List Char × List Char)
  | [] => none
  | c :: rest => if c = '\"' then scanStr rest else none

/-- Consume an exact literal prefix of the input. -/
def parseExact : List Char → List Char → Option (List Char)
  | [], input => some input
  | c :: cs, input =>
    match input with
    | [] => none
    | x :: rest => if x = c then parseExact cs rest else none

/-- Parse a nonempty comma-separated entry list terminated by a closing
brace (the brace is consumed). -/
def parseEntriesNE : Nat → List Char → Option (List (String × String) × List Char)
  | 0, _ => none
  | fuel + 1, input =>
    match parseQuoted input with
    | none => none
    | some (k, r1) =>
      match r1 with
      | ':' :: r2 =>
        match parseQuoted r2 with
        | none => none
        | some (v, r3) =>
          match r3 with
          | ',' :: r4 =>
            match parseEntriesNE fuel r4 with
            | none => none
            | some (es, r5) => some ((String.mk k, String.mk v) :: es, r5)
          | '}' :: r4 => some ([(String.mk k, String.mk v)], r4)
          | _ => none
      | _ => none

/-- Parse a possibly empty entry object body up to and including its
closing brace. -/
def parseEntryMap (fuel : Nat) (input : List Char) :
    Option (List (String × String) × List Char) :=
  match input with
  | [] => none
  | c :: rest => if c = '}' then some ([], rest) else parseEntriesNE fuel (c :: rest)

/-- Modelled from the spec: the Lock Store's load operation (absent from
src/), parsing exactly the Lock Record file format written by save. -/
def load (s : String) : Option LockRecord :=
  match parseExact ('{' :: (serStr "ownSignature".data ++ [':'])) s.data with
  | none => none
  | some r1 =>
    match parseQuoted r1 with
    | none => none
    | some (own, r2) =>
      match parseExact (',' :: (serStr "dependencySignatures".data ++ [':', '{'])) r2 with
      | none => none
      | some r3 =>
        match parseEntryMap s.data.length r3 with
        | none => none
        | some (deps, r4) =>
          match r4 with
          | ['}'] => some ⟨String.mk own, deps⟩
          | _ => none

theorem string_mk_data (s : String) : String.mk s.data = s := rfl

theorem scanStr_append (s rest : List Char) (h : '\"' ∉ s) :
    scanStr (s ++ '\"' :: rest) = some (s, rest) := by
  induction s with
  | nil => simp [scanStr]
  | cons c cs ih =>
    have hc : c ≠ '\"' := fun hc => h (hc ▸ List.mem_cons_self c cs)
    have hcs : '\"' ∉ cs := fun hm => h (List.mem_cons_of_mem c hm)
    simp [scanStr, hc, ih hcs]

theorem parseQuoted_serStr (s rest : List Char) (h : '\"' ∉ s) :
    parseQuoted (serStr s ++ rest) = some (s, rest) := by
  simp [serStr, parseQuoted, List.append_assoc, scanStr_append s rest h]

theorem parseExact_append (lit rest : List Char) :
    parseExact lit (lit ++ rest) = some rest := by
  induction lit with
  | nil => simp [parseExact]
  | cons c cs ih => simp [parseExact, ih]

/-- Dependency entries whose names and signatures contain no quote
character (stage names and lowercase-hex signatures never do). -/
def QuoteFreeEntries (es : List (String × String)) : Prop :=
  ∀ kv ∈ es, '\"' ∉ kv.1.data ∧ '\"' ∉ kv.2.data

instance (es : List (String × String)) : Decidable (QuoteFreeEntries es) := by
  unfold QuoteFreeEntries
  infer_instance

theorem parseEntriesNE_serEntries : ∀ (es : List (String × String))
    (fuel : Nat) (rest : List Char), es ≠ [] → es.length ≤ fuel →
    QuoteFreeEntries es →
    parseEntriesNE fuel (serEntries es ++ '}' :: rest) = some (es, rest) := by
  intro es
  induction es with
  | nil => intro fuel rest hne _ _; exact absurd rfl hne
  | cons kv tl ih =>
    intro fuel rest _ hfuel hq
    have hk : '\"' ∉ kv.1.data := (hq kv (List.mem_cons_self kv tl)).1
    have hv : '\"' ∉ kv.2.data := (hq kv (List.mem_cons_self kv tl)).2
    match fuel with
    | 0 => simp at hfuel
    | f + 1 =>
      cases tl with
      | nil =>
        show parseEntriesNE (f + 1) (serEntry kv ++ '}' :: rest) = _
        simp only [parseEntriesNE, serEntry, List.append_assoc, List.cons_append,
          parseQuoted_serStr kv.1.data _ hk, parseQuoted_serStr kv.2.data _ hv,
          string_mk_data]
      | cons e2 tl2 =>
        have htl : QuoteFreeEntries (e2 :: tl2) :=
          fun x hx => hq x (List.mem_cons_of_mem kv hx)
        have hlen : (e2 :: tl2).length <= f := by
          simpa using hfuel
        show parseEntriesNE (f + 1)
            ((serEntry kv ++ (',' :: serEntries (e2 :: tl2))) ++ '}' :: rest) = _
        simp only [parseEntriesNE, serEntry, List.append_assoc, List.cons_append,
          parseQuoted_serStr kv.1.data _ hk, parseQuoted_serStr kv.2.data _ hv,
          ih f rest (by simp) hlen htl, string_mk_data]

theorem string_data_mk (l : List Char) : (String.mk l).data = l := rfl

theorem serEntries_cons_head (kv : String × String)
    (tl : List (String × String)) :
    ∃ y, serEntries (kv :: tl) = '\"' :: y := by
  cases tl with
  | nil => exact ⟨_, rfl⟩
  | cons e2 tl2 => exact ⟨_, rfl⟩

theorem parseEntryMap_serEntries (es : List (String × String)) (fuel : Nat)
    (rest : List Char) (hfuel : es.length ≤ fuel) (hq : QuoteFreeEntries es) :
    parseEntryMap fuel (serEntries es ++ '}' :: rest) = some (es, rest) := by
  cases es with
  | nil => simp [serEntries, parseEntryMap]
  | cons kv tl =>
    obtain ⟨y, hy⟩ := serEntries_cons_head kv tl
    have hy2 : serEntries (kv :: tl) ++ '}' :: rest =
        '\"' :: (y ++ '}' :: rest) := by rw [hy]; rfl
    rw [hy2]
    simp only [parseEntryMap]
    rw [if_neg (by decide)]
    rw [show ('\"' :: (y ++ '}' :: rest)) = serEntries (kv :: tl) ++ '}' :: rest
      from hy2.symm]
    exact parseEntriesNE_serEntries (kv :: tl) fuel rest (by simp) hfuel hq

theorem length_le_serEntries : ∀ es : List (String × String),
    es.length ≤ (serEntries es).length := by
  intro es
  induction es with
  | nil => simp [serEntries]
  | cons kv tl ih =>
    cases tl with
    | nil => simp [serEntries, serEntry, serStr]
    | cons e2 tl2 =>
      show (kv :: e2 :: tl2).length ≤
        (serEntry kv ++ (',' :: serEntries (e2 :: tl2))).length
      simp only [List.length_append, List.length_cons] at ih ⊢
      omega

/-- C7: For every Lock Record R whose signature strings and dependency
names are quote-free (as lowercase-hex signatures and stage names always
are), loading the record after saving it returns R exactly:
load(save(R)) = R, with signature strings preserved byte-for-byte
through serialization and deserialization of the Lock Record file. -/
theorem load_save_roundtrip (r : LockRecord)
    (h1 : '\"' ∉ r.ownSignature.data)
    (h2 : QuoteFreeEntries r.dependencySignatures) :
    load (save r) = some r := by
  obtain ⟨own, deps⟩ := r
  have hfuel : deps.length ≤ (saveBytes ⟨own, deps⟩).length := by
    have := length_le_serEntries deps
    simp only [saveBytes, serStr, List.length_append, List.length_cons]
    omega
  simp only [load, save, string_data_mk, saveBytes, parseExact_append,
    parseQuoted_serStr own.data _ h1]
  rw [parseEntryMap_serEntries deps _ ['}'] ?hf h2]
  · simp [string_mk_data]
  case hf =>
    have := length_le_serEntries deps
    simp only [List.length_append, List.length_cons, serStr]
    omega

/-- Witness: round-trip of a concrete Lock Record with two dependency
signatures. -/
theorem load_save_roundtrip_witness :
    load (save ⟨"abc123", [("corpus", "deadbeef"), ("sample", "0f5e")]⟩) =
      some ⟨"abc123", [("corpus", "deadbeef"), ("sample", "0f5e")]⟩ :=
  load_save_roundtrip _ (by decide) (by decide)

/-! # Pipeline Runner

The Pipeline Runner implementation is absent from src/; the model below
follows the LOCKING PROTOCOL comment of
src/src/experiment/file/lock/lock.go: every LOCKFILE (dependencies and
current step) must be present, else the run reports not-cached and
errors out; the current step's recorded dependency signatures are
verified against the signatures contained in the dependency LOCKFILES,
and any mismatch errors out; then the current LOCKFILE is deleted as a
safety measure, the step runs, and on failure the old LOCKFILE is
re-written provided no files were overwritten, while on success the
LOCKFILE is re-generated and written to disk. -/

/-- View of one declared dependency of the target stage at run time: its
name, its Lock Record as present on disk (none when it has no LOCKFILE),
and its live signature computed fresh from its current data files. -/
structure Dep where
  name : String
  record : Option LockRecord
  liveSignature : String
deriving DecidableEq

/-- Modelled from the spec: the work-execution collaborator invoked at
the RUNNING step (absent from src/).  succeeds tells whether the
external stage work returns normally; overwroteFiles tells whether a
failed run has overwritten files (the protocol comment makes the
rollback conditional on this); err is the propagated failure message;
newOwnSignature is the stage Signature() recomputed from the artifact
state a successful run produces. -/
structure Work where
  succeeds : Bool
  overwroteFiles : Bool
  err : String
  newOwnSignature : String
deriving DecidableEq

/-- Everything one pipeline-runner invocation observes: the dependency
views, the target stage's on-disk Lock Record, and the behavior of the
external stage work. -/
structure RunInput where
  deps : List Dep
  target : Option LockRecord
  work : Work
deriving DecidableEq

/-- Errors the run can report. -/
inductive RunError where
  | notCached (dep : String)
  | targetNotCached
  | stale (dep : String)
  | workFailed (msg : String)
deriving DecidableEq

/-- Durable actions the runner performs on the target stage's LOCKFILE
and work, in order. -/
inductive Event where
  | deleteLock
  | runWork
  | writeLock (r : LockRecord)
deriving DecidableEq

instance : DecidableEq (Except RunError LockRecord) := fun a b =>
  match a, b with
  | .ok x, .ok y => decidable_of_iff (x = y) (by simp)
  | .error x, .error y => decidable_of_iff (x = y) (by simp)
  | .ok _, .error _ => isFalse (fun h => Except.noConfusion h)
  | .error _, .ok _ => isFalse (fun h => Except.noConfusion h)

/-- Outcome of one runner invocation: the ordered durable actions, the
final on-disk Lock Record of the target, and the reported result. -/
structure RunTrace where
  events : List Event
  finalLock : Option LockRecord
  result : Except RunError LockRecord
deriving DecidableEq

/-- Look a dependency name up in a record's dependencySignatures. -/
def lookupSig (m : List (String × String)) (k : String) : Option String :=
  (m.find? (fun p => p.1 == k)).map Prod.snd

/-- Name of the first dependency with no LOCKFILE on disk, if any. -/
def firstUnlockedDepName (deps : List Dep) : Option String :=
  (deps.find? (fun d => d.record.isNone)).map Dep.name

/-- A dependency is stale for a record when the record's entry for it is
missing or differs from the signature contained in the dependency's own
LOCKFILE. -/
def depStale (rec : LockRecord) (d : Dep) : Bool :=
  match d.record with
  | none => false
  | some rd => !(lookupSig rec.dependencySignatures d.name == some rd.ownSignature)

/-- Name of the first stale dependency, if any. -/
def firstStaleDepName (rec : LockRecord) (deps : List Dep) : Option String :=
  (deps.find? (depStale rec)).map Dep.name

/-- Modelled from the spec: the dependencies' live signatures, indexed
by dependency name, as recomputed from their current artifact state. -/
def liveDepSignatures (deps : List Dep) : List (String × String) :=
  deps.map (fun d => (d.name, d.liveSignature))

/-- Decision of the verification phase that precedes any mutation. -/
inductive CheckOutcome where
  | missingDep (name : String)
  | missingTarget
  | staleDep (name : String)
  | validTarget (rec : LockRecord)
deriving DecidableEq

/-- Verification phase of the protocol: all LOCKFILEs must exist, and
the target record's dependency signatures must equal the signatures
contained in the dependency LOCKFILES. -/
def checkPhase (inp : RunInput) : CheckOutcome :=
  match firstUnlockedDepName inp.deps with
  | some n => .missingDep n
  | none =>
    match inp.target with
    | none => .missingTarget
    | some rec =>
      match firstStaleDepName rec inp.deps with
      | some n => .staleDep n
      | none => .validTarget rec

/-- Modelled from the spec: the Pipeline Runner (absent from src/),
with control flow taken from the lock.go LOCKING PROTOCOL comment.
After successful verification it deletes the target LOCKFILE, runs the
step, and then either re-generates the LOCKFILE (recomputing the live
dependency signatures and the post-run own signature) on success, or
re-writes the old LOCKFILE on failure provided the failed run
overwrote no files, propagating the work failure either way. -/
def runStage (inp : RunInput) : RunTrace :=
  match checkPhase inp with
  | .missingDep n => ⟨[], inp.target, .error (.notCached n)⟩
  | .missingTarget => ⟨[], inp.target, .error .targetNotCached⟩
  | .staleDep n => ⟨[], inp.target, .error (.stale n)⟩
  | .validTarget rec =>
    if inp.work.succeeds then
      let newRec : LockRecord :=
        ⟨inp.work.newOwnSignature, liveDepSignatures inp.deps⟩
      ⟨[.deleteLock, .runWork, .writeLock newRec], some newRec, .ok newRec⟩
    else if inp.work.overwroteFiles then
      ⟨[.deleteLock, .runWork], none, .error (.workFailed inp.work.err)⟩
    else
      ⟨[.deleteLock, .runWork, .writeLock rec], some rec,
        .error (.workFailed inp.work.err)⟩

/-- Effect of one durable action on the target's on-disk Lock Record. -/
def applyEvent (st : Option LockRecord) : Event → Option LockRecord
  | .deleteLock => none
  | .runWork => st
  | .writeLock r => some r

/-- On-disk Lock Record after a prefix of the durable actions; crash
states are exactly these intermediate states. -/
def applyEvents (st : Option LockRecord) (es : List Event) : Option LockRecord :=
  es.foldl applyEvent st

/-- Whether a result is a stale-dependency error. -/
def isStaleResult : Except RunError LockRecord → Bool
  | .error (.stale _) => true
  | _ => false

/-- Whether a result is any error. -/
def isErrorResult : Except RunError LockRecord → Bool
  | .error _ => true
  | .ok _ => false

/-- The same run input with every dependency's live signature replaced;
records, names, target and work are untouched. -/
def setLive (inp : RunInput) (f : String → String) : RunInput :=
  { inp with deps := inp.deps.map (fun d => { d with liveSignature := f d.name }) }

theorem checkPhase_validTarget_target {inp : RunInput} {rec : LockRecord}
    (h : checkPhase inp = .validTarget rec) : inp.target = some rec := by
  unfold checkPhase at h
  split at h
  · exact CheckOutcome.noConfusion h
  · split at h
    · exact CheckOutcome.noConfusion h
    · split at h
      · exact CheckOutcome.noConfusion h
      · injection h with h2
        subst h2
        assumption

theorem runStage_running_char (inp : RunInput)
    (h : Event.runWork ∈ (runStage inp).events) :
    ∃ rec, checkPhase inp = .validTarget rec := by
  cases hc : checkPhase inp with
  | missingDep n => simp [runStage, hc] at h
  | missingTarget => simp [runStage, hc] at h
  | staleDep n => simp [runStage, hc] at h
  | validTarget rec => exact ⟨rec, rfl⟩

theorem firstUnlockedDepName_setLive (deps : List Dep) (f : String → String) :
    firstUnlockedDepName
        (deps.map (fun d => { d with liveSignature := f d.name })) =
      firstUnlockedDepName deps := by
  induction deps with
  | nil => rfl
  | cons d tl ih =>
    simp only [List.map_cons, firstUnlockedDepName] at ih ⊢
    simp only [List.find?]
    cases hp : d.record.isNone with
    | true => simp [hp]
    | false => simpa [hp] using ih

theorem firstStaleDepName_setLive (rec : LockRecord) (deps : List Dep)
    (f : String → String) :
    firstStaleDepName rec
        (deps.map (fun d => { d with liveSignature := f d.name })) =
      firstStaleDepName rec deps := by
  induction deps with
  | nil => rfl
  | cons d tl ih =>
    simp only [List.map_cons, firstStaleDepName] at ih ⊢
    simp only [List.find?]
    have hps : depStale rec { d with liveSignature := f d.name } = depStale rec d := rfl
    cases hp : depStale rec d with
    | true => simp [hps, hp]
    | false => simpa [hps, hp] using ih

/-- Counterexample to C1 as stated: a run whose target had a Lock Record
on disk and whose RUNNING step fails after overwriting files does not
get its record restored — the protocol comment restores the old LOCKFILE
only when no files were overwritten — so the post-run record is absent
and IsLocked() changes, though the failure is still propagated. -/
theorem rollback_unconditional_counterexample :
    (let inp : RunInput :=
      ⟨[⟨"corpus", some ⟨"caaa", []⟩, "caaa"⟩],
        some ⟨"town", [("corpus", "caaa")]⟩, ⟨false, true, "boom", "n"⟩⟩
     inp.target = some ⟨"town", [("corpus", "caaa")]⟩ ∧
     Event.runWork ∈ (runStage inp).events ∧
     inp.work.succeeds = false ∧
     (runStage inp).finalLock = none ∧
     (runStage inp).finalLock ≠ inp.target ∧
     (runStage inp).result = .error (.workFailed "boom")) := by decide

/-- C1 (amended): for every run whose target had Lock Record R on disk,
if the RUNNING step fails without having overwritten any files, the
runner restores exactly R via a write of the previous record, the
post-run record equals R, IsLocked() is unchanged, and the original
failure is propagated to the caller.  (If the failed run overwrote
files, the record instead stays deleted; see the counterexample.) -/
theorem rollback_restores_previous_record (inp : RunInput) (R : LockRecord)
    (hR : inp.target = some R)
    (hrun : Event.runWork ∈ (runStage inp).events)
    (hfail : inp.work.succeeds = false)
    (hnoov : inp.work.overwroteFiles = false) :
    (runStage inp).finalLock = some R ∧
    (runStage inp).finalLock.isSome = inp.target.isSome ∧
    (runStage inp).result = .error (.workFailed inp.work.err) ∧
    Event.writeLock R ∈ (runStage inp).events := by
  obtain ⟨rec, hc⟩ := runStage_running_char inp hrun
  have ht : inp.target = some rec := checkPhase_validTarget_target hc
  have hrecR : rec = R := by
    rw [hR] at ht
    exact (Option.some.inj ht).symm
  subst hrecR
  simp [runStage, hc, hfail, hnoov, hR]

/-- Witness for the amended C1 at a concrete failing run that overwrote
nothing. -/
theorem rollback_restores_previous_record_witness :
    (runStage ⟨[⟨"corpus", some ⟨"caaa", []⟩, "caaa"⟩],
        some ⟨"town", [("corpus", "caaa")]⟩,
        ⟨false, false, "boom", "n"⟩⟩).finalLock =
      some ⟨"town", [("corpus", "caaa")]⟩ :=
  (rollback_restores_previous_record _ _ rfl (by decide) rfl rfl).1

/-- C2: in every run in which the RUNNING step executes and succeeds,
the runner persists a new Lock Record whose dependencySignatures equal
the dependencies' live signatures (captured at invalidation time, which
the run does not change) and whose ownSignature equals the stage
Signature() computed after the run completes. -/
theorem commit_records_live_signatures (inp : RunInput)
    (hrun : Event.runWork ∈ (runStage inp).events)
    (hok : inp.work.succeeds = true) :
    (runStage inp).result =
      .ok ⟨inp.work.newOwnSignature, liveDepSignatures inp.deps⟩ ∧
    (runStage inp).finalLock =
      some ⟨inp.work.newOwnSignature, liveDepSignatures inp.deps⟩ := by
  obtain ⟨rec, hc⟩ := runStage_running_char inp hrun
  simp [runStage, hc, hok]

/-- Witness for C2 at a concrete successful run. -/
theorem commit_records_live_signatures_witness :
    (runStage ⟨[⟨"corpus", some ⟨"caaa", []⟩, "clive"⟩],
        some ⟨"town", [("corpus", "caaa")]⟩,
        ⟨true, false, "", "newown"⟩⟩).finalLock =
      some ⟨"newown", [("corpus", "clive")]⟩ :=
  (commit_records_live_signatures _ (by decide) rfl).2

/-- Counterexample to C3 as stated: a locked target whose recorded
corpus signature ("aaa") differs from the corpus's live signature
("bbb") is not reported stale when the corpus LOCKFILE still contains
"aaa" — the protocol comment compares against the signatures contained
in the dependency LOCKFILES, not against live signatures — and the
run proceeds, rewriting the target's record. -/
theorem stale_uses_live_signatures_counterexample :
    (let inp : RunInput :=
      ⟨[⟨"corpus", some ⟨"aaa", []⟩, "bbb"⟩],
        some ⟨"t", [("corpus", "aaa")]⟩, ⟨true, false, "", "n"⟩⟩
     lookupSig (⟨"t", [("corpus", "aaa")]⟩ : LockRecord).dependencySignatures
        "corpus" = some "aaa" ∧
     liveDepSignatures inp.deps = [("corpus", "bbb")] ∧
     ("aaa" : String) ≠ "bbb" ∧
     isStaleResult (runStage inp).result = false ∧
     (runStage inp).finalLock ≠ inp.target) := by decide

/-- C3 (amended): for every locked target stage, if any entry of the
on-disk Lock Record's dependencySignatures differs from the signature
contained in that dependency's own LOCKFILE (a missing key or a
differing signature), the run aborts with a stale-dependency error that
names the offending dependency, and the target's existing Lock Record is
left untouched on disk (no deletion, no mutation, no work executed). -/
theorem stale_aborts_untouched (inp : RunInput) (rec : LockRecord) (n : String)
    (hdeps : firstUnlockedDepName inp.deps = none)
    (htgt : inp.target = some rec)
    (hstale : firstStaleDepName rec inp.deps = some n) :
    (runStage inp).result = .error (.stale n) ∧
    (runStage inp).finalLock = inp.target ∧
    (runStage inp).events = [] := by
  simp [runStage, checkPhase, hdeps, htgt, hstale]

/-- Witness for the amended C3: a Sample stage whose recorded corpus
signature disagrees with the corpus LOCKFILE signature aborts stale,
naming corpus and leaving the record alone. -/
theorem stale_aborts_untouched_witness :
    (runStage ⟨[⟨"corpus", some ⟨"aaa", []⟩, "aaa"⟩],
        some ⟨"s", [("corpus", "zzz")]⟩, ⟨true, false, "", "n"⟩⟩).result =
      .error (.stale "corpus") :=
  (stale_aborts_untouched _ ⟨"s", [("corpus", "zzz")]⟩ "corpus"
    (by decide) rfl (by decide)).1

/-- C4: in every run that reaches the RUNNING step, the deletion of the
target's Lock Record happens strictly before the stage work begins (the
first durable action is the deletion and the second is the work), every
state reachable by crashing between the deletion and the end of the
work has no Lock Record on disk, and a run whose target has no Lock
Record never treats the stage as cached: it performs no durable action
and reports an error. -/
theorem invalidation_precedes_running (inp : RunInput)
    (hrun : Event.runWork ∈ (runStage inp).events) :
    (runStage inp).events.take 2 = [.deleteLock, .runWork] ∧
    applyEvents inp.target ((runStage inp).events.take 1) = none ∧
    applyEvents inp.target ((runStage inp).events.take 2) = none ∧
    (∀ inp2 : RunInput, inp2.target = none →
      (runStage inp2).events = [] ∧
      isErrorResult (runStage inp2).result = true) := by
  obtain ⟨rec, hc⟩ := runStage_running_char inp hrun
  refine ⟨?_, ?_, ?_, ?_⟩
  · cases hs : inp.work.succeeds with
    | true => simp [runStage, hc, hs]
    | false =>
      cases ho : inp.work.overwroteFiles with
      | true => simp [runStage, hc, hs, ho]
      | false => simp [runStage, hc, hs, ho]
  · cases hs : inp.work.succeeds with
    | true => simp [runStage, hc, hs, applyEvents, applyEvent]
    | false =>
      cases ho : inp.work.overwroteFiles with
      | true => simp [runStage, hc, hs, ho, applyEvents, applyEvent]
      | false => simp [runStage, hc, hs, ho, applyEvents, applyEvent]
  · cases hs : inp.work.succeeds with
    | true => simp [runStage, hc, hs, applyEvents, applyEvent]
    | false =>
      cases ho : inp.work.overwroteFiles with
      | true => simp [runStage, hc, hs, ho, applyEvents, applyEvent]
      | false => simp [runStage, hc, hs, ho, applyEvents, applyEvent]
  · intro inp2 htgt2
    cases hu : firstUnlockedDepName inp2.deps with
    | some n => simp [runStage, checkPhase, hu, isErrorResult]
    | none => simp [runStage, checkPhase, hu, htgt2, isErrorResult]

/-- Witness for C4 at a concrete run reaching RUNNING. -/
theorem invalidation_precedes_running_witness :
    (runStage ⟨[⟨"corpus", some ⟨"caaa", []⟩, "caaa"⟩],
        some ⟨"town", [("corpus", "caaa")]⟩,
        ⟨true, false, "", "n"⟩⟩).events.take 2 =
      [Event.deleteLock, Event.runWork] :=
  (invalidation_precedes_running _ (by decide)).1

/-- Counterexample to C5 as stated: a locked Config stage whose recorded
sample signature equals the sample's current live signature (and the
sample LOCKFILE signature) does not transition directly to DONE — the
protocol comment runs the step whenever the signatures match — so the
work collaborator is invoked, the record is deleted and then
rewritten. -/
theorem cache_hit_skips_work_counterexample :
    (let inp : RunInput :=
      ⟨[⟨"sample", some ⟨"sss", []⟩, "sss"⟩],
        some ⟨"c", [("sample", "sss")]⟩, ⟨true, false, "", "c2"⟩⟩
     liveDepSignatures inp.deps = [("sample", "sss")] ∧
     lookupSig (⟨"c", [("sample", "sss")]⟩ : LockRecord).dependencySignatures
        "sample" = some "sss" ∧
     Event.runWork ∈ (runStage inp).events ∧
     Event.deleteLock ∈ (runStage inp).events ∧
     (runStage inp).finalLock ≠ inp.target) := by decide

/-- C5 (amended): for every locked target stage all of whose recorded
dependencySignatures match the signatures in the dependencies'
LOCKFILES, the runner does not skip execution: it deletes the record,
invokes the work-execution collaborator, and on success commits a fresh
record combining the post-run own signature with the dependencies' live
signatures. -/
theorem matching_signatures_still_run (inp : RunInput) (rec : LockRecord)
    (hdeps : firstUnlockedDepName inp.deps = none)
    (htgt : inp.target = some rec)
    (hmatch : firstStaleDepName rec inp.deps = none) :
    Event.deleteLock ∈ (runStage inp).events ∧
    Event.runWork ∈ (runStage inp).events ∧
    (inp.work.succeeds = true →
      (runStage inp).result =
        .ok ⟨inp.work.newOwnSignature, liveDepSignatures inp.deps⟩) := by
  have hc : checkPhase inp = .validTarget rec := by
    simp [checkPhase, hdeps, htgt, hmatch]
  refine ⟨?_, ?_, ?_⟩
  · cases hs : inp.work.succeeds with
    | true => simp [runStage, hc, hs]
    | false =>
      cases ho : inp.work.overwroteFiles with
      | true => simp [runStage, hc, hs, ho]
      | false => simp [runStage, hc, hs, ho]
  · cases hs : inp.work.succeeds with
    | true => simp [runStage, hc, hs]
    | false =>
      cases ho : inp.work.overwroteFiles with
      | true => simp [runStage, hc, hs, ho]
      | false => simp [runStage, hc, hs, ho]
  · intro hs
    simp [runStage, hc, hs]

/-- Witness for the amended C5 at a concrete matching locked stage. -/
theorem matching_signatures_still_run_witness :
    Event.runWork ∈
      (runStage ⟨[⟨"sample", some ⟨"sss", []⟩, "sss"⟩],
        some ⟨"c", [("sample", "sss")]⟩, ⟨true, false, "", "c2"⟩⟩).events :=
  (matching_signatures_still_run _ ⟨"c", [("sample", "sss")]⟩
    (by decide) rfl (by decide)).2.1

/-- Counterexample to C8 as stated: the verification step does not use
live dependency signatures.  Here the corpus's live signature is "yyy"
while its LOCKFILE and the target's recorded entry both say "xxx"; were
DependencySignatures recomputed live, the run would abort stale, but it
proceeds and commits, because the protocol comment deserializes the
dependency LOCKFILES and compares the signatures contained in them. -/
theorem dependency_signatures_live_counterexample :
    (let inp : RunInput :=
      ⟨[⟨"corpus", some ⟨"xxx", []⟩, "yyy"⟩],
        some ⟨"t", [("corpus", "xxx")]⟩, ⟨true, false, "", "n2"⟩⟩
     inp.deps.map Dep.liveSignature = ["yyy"] ∧
     lookupSig (⟨"t", [("corpus", "xxx")]⟩ : LockRecord).dependencySignatures
        "corpus" = some "xxx" ∧
     ("xxx" : String) ≠ "yyy" ∧
     isStaleResult (runStage inp).result = false ∧
     (runStage inp).result = .ok ⟨"n2", [("corpus", "yyy")]⟩) := by decide

/-- C8 (amended): the verification phase of a run is a function of the
dependencies' persisted Lock Records alone — replacing every
dependency's live signature changes neither the check decision nor
whether the stage work is invoked; live signatures are recomputed from
current artifact state only to fill the regenerated record after a
successful run. -/
theorem verification_ignores_live_signatures (inp : RunInput)
    (f : String → String) :
    checkPhase (setLive inp f) = checkPhase inp ∧
    (Event.runWork ∈ (runStage (setLive inp f)).events ↔
      Event.runWork ∈ (runStage inp).events) := by
  have hcheck : checkPhase (setLive inp f) = checkPhase inp := by
    unfold checkPhase setLive
    simp only [firstUnlockedDepName_setLive inp.deps f]
    cases ht : inp.target with
    | none => simp [ht]
    | some rec => simp [ht, firstStaleDepName_setLive rec inp.deps f]
  refine ⟨hcheck, ?_⟩
  cases hc : checkPhase inp with
  | missingDep n => simp [runStage, hc, hcheck.trans hc]
  | missingTarget => simp [runStage, hc, hcheck.trans hc]
  | staleDep n => simp [runStage, hc, hcheck.trans hc]
  | validTarget rec =>
    have hc2 := hcheck.trans hc
    have hw : (setLive inp f).work = inp.work := rfl
    cases hs : inp.work.succeeds with
    | true => simp [runStage, hc, hc2, hw, hs]
    | false =>
      cases ho : inp.work.overwroteFiles with
      | true => simp [runStage, hc, hc2, hw, hs, ho]
      | false => simp [runStage, hc, hc2, hw, hs, ho]

/-- Witness: the C8 amendment applied at a concrete input and live
reassignment. -/
theorem verification_ignores_live_signatures_witness :
    checkPhase (setLive ⟨[⟨"corpus", some ⟨"xxx", []⟩, "yyy"⟩],
        some ⟨"t", [("corpus", "xxx")]⟩, ⟨true, false, "", "n2"⟩⟩
        (fun _ => "zzz")) =
      checkPhase ⟨[⟨"corpus", some ⟨"xxx", []⟩, "yyy"⟩],
        some ⟨"t", [("corpus", "xxx")]⟩, ⟨true, false, "", "n2"⟩⟩ :=
  (verification_ignores_live_signatures _ _).1

/-! # bfrepo: repository manager (embedded from src/src/bfrepo/bfrepo.go)

Shell commands are modelled by their observable effect on an abstract
git repository state: the set of branch tips and the current HEAD.
Failure paths of the auxiliary commands (directory change, rev-parse)
surface as a missing result, as in the Go code they surface as an error
return with no handle. -/

/-- Git remotes are case-insensitive, which is why they are lowercase
here (embedded constants from bfrepo.go). -/
def bitfunnelHTTPSRemote : String := "https://github.com/bitfunnel/bitfunnel"

def bitfunnelSSHRemote : String := "git@github.com:bitfunnel/bitfunnel.git"

/-- Current HEAD of the repository: on a branch, or detached at a
commit. -/
inductive Head where
  | branch (name : String)
  | detached (sha : String)
deriving DecidableEq

/-- Abstract git repository state: branch tips and HEAD. -/
structure GitRepo where
  branchSha : List (String × String)
  head : Head
deriving DecidableEq

/-- Effect of git rev-parse with the strict abbrev-ref option on HEAD:
the branch short name, or the literal HEAD when detached. -/
def revParseAbbrevRef (g : GitRepo) : String :=
  match g.head with
  | .branch n => n
  | .detached _ => "HEAD"

/-- Effect of git rev-parse HEAD: the commit sha of HEAD, when it
resolves. -/
def revParseHead (g : GitRepo) : Option String :=
  match g.head with
  | .branch n => (g.branchSha.find? (fun p => p.1 == n)).map Prod.snd
  | .detached s => some s

/-- Effect of git checkout rev: HEAD moves to the branch of that name
when one exists, otherwise HEAD detaches at rev. -/
def gitCheckout (g : GitRepo) (rev : String) : GitRepo :=
  if rev ∈ g.branchSha.map Prod.fst then
    { g with head := .branch rev }
  else
    { g with head := .detached rev }

/-- Checkout from bfrepo.go: record the short name of HEAD and the
commit hash of HEAD, check out the commit denoted by sha, and return
the new state together with the dispose action, which checks out the
recorded sha when the short name was HEAD (detached) and the recorded
branch short name otherwise. -/
def Checkout (g : GitRepo) (sha : String) :
    Option (GitRepo × (GitRepo → GitRepo)) :=
  let headRef := revParseAbbrevRef g
  match revParseHead g with
  | none => none
  | some headSha =>
    let afterCheckout := gitCheckout g sha
    let resetHead : GitRepo → GitRepo := fun g2 =>
      let presentRef := if headRef = "HEAD" then headSha else headRef
      gitCheckout g2 presentRef
    some (afterCheckout, resetHead)

/-- Running the dispose action returned by Checkout on a later state. -/
def runDispose (g : GitRepo) (sha : String) (h : GitRepo) : Option GitRepo :=
  (Checkout g sha).map (fun p => p.2 h)

/-- The ref that was HEAD before a checkout: the branch short name when
HEAD was on a branch, the commit sha when HEAD was detached. -/
def preCheckoutRef (g : GitRepo) : String :=
  match g.head with
  | .branch b => b
  | .detached s => s

/-- C9: for every successful Checkout(sha) on repository state g, the
returned dispose action applied to a later state h (same branch tips)
checks out exactly the ref that was HEAD before the checkout — the
recorded branch short name if HEAD was on a branch (one not literally
named HEAD), or the recorded commit sha if HEAD was detached (short
name equal to HEAD) — restoring HEAD to its pre-Checkout ref. -/
theorem checkout_dispose_restores (g h : GitRepo) (sha : String)
    (hsome : (Checkout g sha).isSome = true)
    (hsame : h.branchSha = g.branchSha)
    (hnotHEAD : ∀ b, g.head = .branch b → b ≠ "HEAD")
    (hnoclash : ∀ s, g.head = .detached s → s ∉ h.branchSha.map Prod.fst) :
    runDispose g sha h = some (gitCheckout h (preCheckoutRef g)) ∧
    (gitCheckout h (preCheckoutRef g)).head = g.head ∧
    (gitCheckout h (preCheckoutRef g)).branchSha = h.branchSha := by
  cases hh : g.head with
  | branch b =>
    have hb : b ≠ "HEAD" := hnotHEAD b hh
    cases hr : revParseHead g with
    | none =>
      rw [Checkout, hr] at hsome
      simp at hsome
    | some headSha =>
      have hmem : b ∈ g.branchSha.map Prod.fst := by
        rw [revParseHead, hh] at hr
        obtain ⟨p, hp1, hp2⟩ := Option.map_eq_some'.mp hr
        have := List.find?_some hp1
        have hpb : p.1 = b := by simpa using this
        exact hpb ▸ List.mem_map_of_mem Prod.fst (List.mem_of_find?_eq_some hp1)
      refine ⟨?_, ?_, ?_⟩
      · rw [runDispose, Checkout, hr]
        simp [revParseAbbrevRef, preCheckoutRef, hh, hb]
      · simp [preCheckoutRef, gitCheckout, hh, hsame, hmem]
      · simp [preCheckoutRef, gitCheckout, hh, hsame, hmem]
  | detached s =>
    have hns : s ∉ h.branchSha.map Prod.fst := hnoclash s hh
    refine ⟨?_, ?_, ?_⟩
    · rw [runDispose, Checkout]
      simp [revParseHead, revParseAbbrevRef, preCheckoutRef, hh]
    · simp [preCheckoutRef, gitCheckout, hh, hns]
    · simp [preCheckoutRef, gitCheckout, hh, hns]

/-- Witness for C9: a concrete repository on branch master, checked out
to a sha and restored. -/
theorem checkout_dispose_restores_witness :
    runDispose ⟨[("master", "abc123")], .branch "master"⟩ "deadbeef"
        (gitCheckout ⟨[("master", "abc123")], .branch "master"⟩ "deadbeef") =
      some (gitCheckout
        (gitCheckout ⟨[("master", "abc123")], .branch "master"⟩ "deadbeef")
        (preCheckoutRef ⟨[("master", "abc123")], .branch "master"⟩)) :=
  (checkout_dispose_restores ⟨[("master", "abc123")], .branch "master"⟩
    (gitCheckout ⟨[("master", "abc123")], .branch "master"⟩ "deadbeef")
    "deadbeef" (by decide) (by decide)
    (fun b hb => by cases hb; decide)
    (fun s hs => Head.noConfusion hs)).1

/-- Error message Fetch builds when the origin remote is not canonical;
it names the repository root path. -/
def badRemoteMessage (bitFunnelRoot : String) : String :=
  "The remote origin in the repository located at " ++ bitFunnelRoot ++
    " is required to point at the canonical BitFunnel repository."

/-- Embedding of strings.ToLower from the Go standard library,
character by character (the URLs compared are ASCII). -/
def strToLower (s : String) : String := String.mk (s.data.map Char.toLower)

/-- What Fetch observes from its environment: the output of git config
for remote.origin.url, and whether git fetch origin would fail. -/
structure FetchEnv where
  originURL : String
  fetchErr : Option String
deriving DecidableEq

/-- Fetch from bfrepo.go: read remote.origin.url, lowercase it, refuse
with an error naming the repository path unless it equals the canonical
SSH or HTTPS remote, and otherwise run git fetch origin, propagating its
error.  The Bool records whether git fetch origin was invoked. -/
def Fetch (bitFunnelRoot : String) (env : FetchEnv) :
    Bool × Except String Unit :=
  let lowerOriginURL := strToLower env.originURL
  if lowerOriginURL ≠ bitfunnelSSHRemote ∧ lowerOriginURL ≠ bitfunnelHTTPSRemote then
    (false, .error (badRemoteMessage bitFunnelRoot))
  else
    match env.fetchErr with
    | some e => (true, .error e)
    | none => (true, .ok ())

/-- C10: Fetch runs git fetch origin exactly when the repository's
remote.origin.url, lowercased, equals the canonical HTTPS remote or the
canonical SSH remote; for every other origin URL it does not fetch and
returns the error naming the repository path. -/
theorem fetch_requires_canonical_remote (root : String) (env : FetchEnv) :
    ((Fetch root env).1 = true ↔
      (strToLower env.originURL = bitfunnelHTTPSRemote ∨
        strToLower env.originURL = bitfunnelSSHRemote)) ∧
    (strToLower env.originURL ≠ bitfunnelHTTPSRemote →
      strToLower env.originURL ≠ bitfunnelSSHRemote →
      (Fetch root env).1 = false ∧
      (Fetch root env).2 = .error (badRemoteMessage root)) := by
  constructor
  · constructor
    · intro h
      by_contra hno
      push_neg at hno
      rw [Fetch] at h
      rw [if_pos ⟨hno.2, hno.1⟩] at h
      simp at h
    · intro h
      have hcond : ¬ (strToLower env.originURL ≠ bitfunnelSSHRemote ∧
          strToLower env.originURL ≠ bitfunnelHTTPSRemote) := by
        rcases h with h | h
        · exact fun hc => hc.2 h
        · exact fun hc => hc.1 h
      rw [Fetch, if_neg hcond]
      cases env.fetchErr <;> simp
  · intro h1 h2
    rw [Fetch, if_pos ⟨h2, h1⟩]
    exact ⟨rfl, rfl⟩

/-- Witness for C10: a non-canonical origin URL is refused with the
path-naming error, and the canonical HTTPS remote in mixed case is
fetched. -/
theorem fetch_requires_canonical_remote_witness :
    (Fetch "/repo" ⟨"https://github.com/example/fork", none⟩).2 =
      .error (badRemoteMessage "/repo") ∧
    (Fetch "/repo" ⟨"HTTPS://GitHub.com/BitFunnel/BitFunnel", none⟩).1 = true :=
  ⟨((fetch_requires_canonical_remote "/repo"
      ⟨"https://github.com/example/fork", none⟩).2
        (by decide) (by decide)).2,
    ((fetch_requires_canonical_remote "/repo"
      ⟨"HTTPS://GitHub.com/BitFunnel/BitFunnel", none⟩).1).mpr
        (Or.inl (by decide))⟩
